import Mathlib

/-!
Shallow embedding of the Chaum-Pedersen zero-knowledge-proof library
(`src/lib.rs`, crate `zkp-chaum-pedersen`).

Big unsigned integers (`num_bigint::BigUint`) are modelled as `Nat`.
`BigUint::modpow` panics when the modulus is zero, so it is modelled as an
`Option`-valued function `modpow` returning `none` exactly on a zero modulus;
every operation built on it propagates that failure.  Random sampling
(`rand::thread_rng` + `gen_biguint_below`) is modelled by passing in an
explicit stream of raw draws together with a fuel bound for the rejection
loop.
-/

/-- Model of `BigUint::modpow(self, exponent, modulus)`: `self ^ exponent mod
modulus`, panicking (here `none`) when `modulus` is zero. -/
def modpow (n e m : Nat) : Option Nat :=
  if m = 0 then none else some (n ^ e % m)

/-- The `ZKP` struct of `lib.rs`: the group description `(p, q, alpha, beta)`. -/
structure ZKP where
  p : Nat
  q : Nat
  alpha : Nat
  beta : Nat

/-- `ZKP::exponentiate(n, exponent, modulus)`: `n.modpow(exponent, modulus)`. -/
def exponentiate (n e m : Nat) : Option Nat :=
  modpow n e m

/-- `ZKP::solve(&self, k, c, x)`: branches on `*k >= c * x`; the `.modpow(1, q)`
calls in the source are reductions mod `self.q`. -/
def ZKP.solve (z : ZKP) (k c x : Nat) : Option Nat :=
  if c * x ≤ k then
    modpow (k - c * x) 1 z.q
  else
    (modpow (c * x - k) 1 z.q).map (fun t => z.q - t)

/-- `ZKP::verify(&self, r1, r2, y1, y2, c, s)`: compares `r1` with
`(alpha^s mod p * y1^c mod p) mod p` and `r2` with
`(beta^s mod p * y2^c mod p) mod p`. -/
def ZKP.verify (z : ZKP) (r1 r2 y1 y2 c s : Nat) : Option Bool :=
  (modpow z.alpha s z.p).bind fun e1 =>
  (modpow y1 c z.p).bind fun f1 =>
  (modpow (e1 * f1) 1 z.p).bind fun t1 =>
  (modpow z.beta s z.p).bind fun e2 =>
  (modpow y2 c z.p).bind fun f2 =>
  (modpow (e2 * f2) 1 z.p).bind fun t2 =>
  some (decide (r1 = t1) && decide (r2 = t2))

/-- Bit length of a natural number, as `BigUint::bits()`: `0` for `0`, else
`floor(log2 n) + 1`.  Written with an explicit fuel argument (`n` itself
suffices) so that it is structurally recursive. -/
def bitsAux : Nat → Nat → Nat
  | 0, _ => 0
  | fuel + 1, n => if n = 0 then 0 else bitsAux fuel (n / 2) + 1

/-- `BigUint::bits()` on the model. -/
def natBits (n : Nat) : Nat := bitsAux n n

/-- `RandBigInt::gen_biguint(bit_size)`: a uniform draw in `[0, 2^bit_size)`;
the raw draw of the random source is reduced into that range. -/
def gen_biguint (draw bits : Nat) : Nat := draw % 2 ^ bits

/-- The rejection loop of `RandBigInt::gen_biguint_below`: draw `bits`-bit
values until one is below `bound`.  `g` is the stream of raw draws, `fuel`
bounds the number of iterations (the real loop runs until success). -/
def gen_below_loop (g : Nat → Nat) (bound bits : Nat) : Nat → Nat → Option Nat
  | 0, _ => none
  | fuel + 1, i =>
    let n := gen_biguint (g i) bits
    if n < bound then some n else gen_below_loop g bound bits fuel (i + 1)

/-- `ZKP::generate_random_below(bound)`: `rng.gen_biguint_below(bound)`, which
asserts the bound is nonzero and then rejection-samples below it. -/
def generate_random_below (g : Nat → Nat) (fuel : Nat) (bound : Nat) : Option Nat :=
  if bound = 0 then none
  else gen_below_loop g bound (natBits bound) fuel 0

/-- The 1024-bit MODP prime `p` hard-coded in `ZKP::get_constants`. -/
def p_const : Nat :=
  0xB10B8F96A080E01DDE92DE5EAE5D54EC52C99FBCFB06A3C69A6A9DCA52D23B616073E28675A23D189838EF1E2EE652C013ECB4AEA906112324975C3CD49B83BFACCBDD7D90C4BD7098488E9C219A73724EFFD6FAE5644738FAA31A4FF55BCCC0A151AF5F0DC8B4BD45BF37DF365C1A65E68CFDA76D4DA708DF1FB2BC2E4A4371

/-- The 160-bit subgroup order `q` hard-coded in `ZKP::get_constants`. -/
def q_const : Nat :=
  0xF518AA8781A8DF278ABA4E7D64B7CB9D49462353

/-- The generator `alpha` hard-coded in `ZKP::get_constants`. -/
def alpha_const : Nat :=
  0xA4D1CBD5C3FD34126765A442EFB99905F8104DD258AC507FD6406CFF14266D31266FEA1E5C41564B777E690F5504F213160217B4B01B886A5E91547F9E2749F4D7FBD7D3B9A92EE1909D0D2263F80A76A6A24C087A091F531DBF0A0169B6A28AD662A4D18E73AFA32D779D5918D08BC8858F4DCEF97C2A24855E6EEB22B3B2E5

/-- `ZKP::get_constants()`: returns `(alpha, beta, p, q)` with
`beta = alpha.modpow(generate_random_below(q), p)`. -/
def get_constants (g : Nat → Nat) (fuel : Nat) : Option (Nat × Nat × Nat × Nat) :=
  (generate_random_below g fuel q_const).bind fun i =>
  (modpow alpha_const i p_const).bind fun beta =>
  some (alpha_const, beta, p_const, q_const)

/-- The small test group of `test_example`: `p = 23`, `q = 11`, `alpha = 4`,
`beta = 9`. -/
def zkp23 : ZKP := ⟨23, 11, 4, 9⟩

/-- `a` has multiplicative order exactly `q` modulo `p`. -/
def hasOrder (a q p : Nat) : Prop :=
  a ^ q % p = 1 % p ∧ ∀ m, m < q → 0 < m → a ^ m % p ≠ 1 % p

instance (a q p : Nat) : Decidable (hasOrder a q p) := by
  unfold hasOrder
  infer_instance

/-! ### Helper lemmas -/

lemma modpow_of_ne_zero (n e m : Nat) (h : m ≠ 0) : modpow n e m = some (n ^ e % m) := by
  simp [modpow, h]

/-- With a nonzero modulus, `verify` computes the two reduced products and
compares them to `r1` and `r2` as given. -/
lemma verify_eq (z : ZKP) (hp : z.p ≠ 0) (r1 r2 y1 y2 c s : Nat) :
    z.verify r1 r2 y1 y2 c s =
      some (decide (r1 = (z.alpha ^ s * y1 ^ c) % z.p) &&
            decide (r2 = (z.beta ^ s * y2 ^ c) % z.p)) := by
  simp only [ZKP.verify, modpow, if_neg hp, Option.some_bind, pow_one]
  rw [← Nat.mul_mod, ← Nat.mul_mod]

/-- With a nonzero `q`, `solve` computes the branch-on-underflow expression. -/
lemma solve_eq (z : ZKP) (hq : z.q ≠ 0) (k c x : Nat) :
    z.solve k c x =
      some (if c * x ≤ k then (k - c * x) % z.q else z.q - (c * x - k) % z.q) := by
  by_cases h : c * x ≤ k <;>
    simp [ZKP.solve, modpow, hq, h]

/-- If `a ^ q ≡ 1 (mod p)` then exponents of `a` can be reduced mod `q`. -/
lemma pow_mod_reduce (a q p n : Nat) (h : a ^ q % p = 1 % p) :
    a ^ n % p = a ^ (n % q) % p := by
  have h1 : Nat.ModEq p ((a ^ q) ^ (n / q)) (1 ^ (n / q)) := Nat.ModEq.pow _ h
  have h2 : Nat.ModEq p ((a ^ q) ^ (n / q) * a ^ (n % q)) (1 ^ (n / q) * a ^ (n % q)) :=
    h1.mul_right _
  have h3 : (a ^ q) ^ (n / q) * a ^ (n % q) = a ^ n := by
    rw [← pow_mul, ← pow_add, Nat.div_add_mod]
  rw [← h3]
  simpa using h2

/-- If `a ^ q ≡ 1 (mod p)` and `x ≡ y (mod q)` then `a ^ x ≡ a ^ y (mod p)`. -/
lemma pow_mod_congr (a q p x y : Nat) (h : a ^ q % p = 1 % p)
    (hxy : x % q = y % q) : a ^ x % p = a ^ y % p := by
  rw [pow_mod_reduce a q p x h, pow_mod_reduce a q p y h, hxy]

/-- Soundness of the response equation: whatever `solve` returns satisfies
`s + c·x ≡ k (mod q)`. -/
lemma solve_key (z : ZKP) (hq : 0 < z.q) (k c x s : Nat)
    (hs : z.solve k c x = some s) : (s + c * x) % z.q = k % z.q := by
  rw [solve_eq z (Nat.pos_iff_ne_zero.mp hq) k c x] at hs
  have hval := Option.some_inj.mp hs
  subst hval
  by_cases h : c * x ≤ k
  · simp only [if_pos h]
    rw [Nat.mod_add_mod, Nat.sub_add_cancel h]
  · simp only [if_neg h]
    have hkx : k + (c * x - k) = c * x := Nat.add_sub_cancel' (Nat.le_of_not_le h)
    obtain ⟨d, hd⟩ : ∃ d, (c * x - k) % z.q = d := ⟨_, rfl⟩
    have hdlt : d < z.q := hd ▸ Nat.mod_lt _ hq
    have h1 : Nat.ModEq z.q (c * x - k) d := hd ▸ (Nat.mod_modEq (c * x - k) z.q).symm
    have h2 : Nat.ModEq z.q (z.q - d + (k + (c * x - k))) (z.q - d + (k + d)) :=
      Nat.ModEq.add_left _ (Nat.ModEq.add_left _ h1)
    have h3 : z.q - d + (k + d) = z.q + k := by omega
    rw [hd]
    calc (z.q - d + c * x) % z.q
        = (z.q - d + (k + (c * x - k))) % z.q := by rw [hkx]
      _ = (z.q - d + (k + d)) % z.q := h2
      _ = (z.q + k) % z.q := by rw [h3]
      _ = k % z.q := Nat.add_mod_left _ _

/-- One honest side of the verification equation: if `a ^ q ≡ 1 (mod p)` and
`s + c·x ≡ k (mod q)`, then `a^k mod p` equals the verifier's recomputed
`(a^s · (a^x mod p)^c) mod p`. -/
lemma honest_side (p q a x k c s : Nat) (ha : a ^ q % p = 1 % p)
    (key : (s + c * x) % q = k % q) :
    a ^ k % p = (a ^ s * (a ^ x % p) ^ c) % p := by
  have g1 : a ^ k % p = a ^ (s + c * x) % p :=
    pow_mod_congr a q p k (s + c * x) ha key.symm
  conv_rhs => rw [Nat.mul_mod, ← Nat.pow_mod, ← pow_mul, ← Nat.mul_mod, ← pow_add]
  rw [g1, mul_comm c x]

/-- Anything the rejection loop returns is below the bound. -/
lemma gen_below_loop_lt (g : Nat → Nat) (bound bits : Nat) :
    ∀ fuel i v, gen_below_loop g bound bits fuel i = some v → v < bound := by
  intro fuel
  induction fuel with
  | zero => intro i v h; simp [gen_below_loop] at h
  | succ n ih =>
    intro i v h
    simp only [gen_below_loop] at h
    by_cases hlt : gen_biguint (g i) bits < bound
    · rw [if_pos hlt] at h
      exact (Option.some_inj.mp h) ▸ hlt
    · rw [if_neg hlt] at h
      exact ih (i + 1) v h

/-- Anything `generate_random_below` returns is below the bound. -/
lemma generate_random_below_lt (g : Nat → Nat) (fuel bound v : Nat)
    (hv : generate_random_below g fuel bound = some v) : v < bound := by
  rw [generate_random_below] at hv
  by_cases hb : bound = 0
  · rw [if_pos hb] at hv; cases hv
  · rw [if_neg hb] at hv
    exact gen_below_loop_lt g bound (natBits bound) fuel 0 v hv

lemma p_const_ne_zero : p_const ≠ 0 := by decide

/-! ### Claim theorems -/

/-- C1: Completeness of the honest prove/verify cycle.  For every group
parameters `(p, q, alpha, beta)` in which `alpha` and `beta` have
multiplicative order exactly `q` modulo `p`, and every secret `x`, nonce `k`,
and challenge `c` each in `[0, q)`, with `y1 = exponentiate(alpha, x, p)`,
`y2 = exponentiate(beta, x, p)`, `r1 = exponentiate(alpha, k, p)`,
`r2 = exponentiate(beta, k, p)` and `s = solve(k, c, x)`, the call
`verify(r1, r2, y1, y2, c, s)` returns `true`. -/
theorem C1_verify_completeness (z : ZKP) (x k c : Nat)
    (hp : 0 < z.p) (hq : 0 < z.q)
    (ha : hasOrder z.alpha z.q z.p) (hb : hasOrder z.beta z.q z.p)
    (hx : x < z.q) (hk : k < z.q) (hc : c < z.q)
    (y1 y2 r1 r2 s : Nat)
    (hy1 : exponentiate z.alpha x z.p = some y1)
    (hy2 : exponentiate z.beta x z.p = some y2)
    (hr1 : exponentiate z.alpha k z.p = some r1)
    (hr2 : exponentiate z.beta k z.p = some r2)
    (hs : z.solve k c x = some s) :
    z.verify r1 r2 y1 y2 c s = some true := by
  have hp' : z.p ≠ 0 := by omega
  rw [exponentiate, modpow_of_ne_zero _ _ _ hp'] at hy1 hy2 hr1 hr2
  obtain rfl : y1 = z.alpha ^ x % z.p := (Option.some_inj.mp hy1).symm
  obtain rfl : y2 = z.beta ^ x % z.p := (Option.some_inj.mp hy2).symm
  obtain rfl : r1 = z.alpha ^ k % z.p := (Option.some_inj.mp hr1).symm
  obtain rfl : r2 = z.beta ^ k % z.p := (Option.some_inj.mp hr2).symm
  have key : (s + c * x) % z.q = k % z.q := solve_key z hq k c x s hs
  rw [verify_eq z hp']
  simp only [Option.some.injEq, Bool.and_eq_true, decide_eq_true_eq]
  exact ⟨honest_side z.p z.q z.alpha x k c s ha.1 key,
         honest_side z.p z.q z.beta x k c s hb.1 key⟩

/-- C1 witness: the theorem applied to the concrete test group. -/
theorem C1_verify_completeness_witness : zkp23.verify 8 4 2 3 4 5 = some true :=
  C1_verify_completeness zkp23 6 7 4 (by decide) (by decide) (by decide) (by decide)
    (by decide) (by decide) (by decide) 2 3 8 4 5
    (by decide) (by decide) (by decide) (by decide) (by decide)

/-- C2: at `q = 11` with `k = 1`, `c = 5`, `x = 9` (all already reduced mod
`q`), `solve` returns `11`, while the true modular difference over the
integers is `(1 - 5*9) mod 11 = 0`; the returned `11` is not in `[0, 11)`.
This exhibits the divergence between the code and the documented contract
`s = (k - c*x) mod q`. -/
theorem C2_solve_divergence :
    zkp23.solve 1 5 9 = some 11 ∧ ((1 : Int) - 5 * 9) % 11 = 0 ∧ ¬ (11 : Nat) < 11 := by
  decide

/-- C3 counterexample: with the test group (`p = 23`, `alpha = 4`, `beta = 9`),
take `r1 = 24`, `r2 = 1`, `y1 = y2 = 1`, `c = s = 0`.  Both congruences
`r1 ≡ alpha^s · y1^c (mod p)` and `r2 ≡ beta^s · y2^c (mod p)` hold, yet
`verify` returns `false`, because it compares `r1` unreduced against the
reduced right-hand side.  So "true iff both congruences hold" fails as
stated. -/
theorem C3_counterexample :
    Nat.ModEq zkp23.p 24 (zkp23.alpha ^ 0 * 1 ^ 0) ∧
    Nat.ModEq zkp23.p 1 (zkp23.beta ^ 0 * 1 ^ 0) ∧
    zkp23.verify 24 1 1 1 0 0 = some false := by
  refine ⟨by decide, by decide, by decide⟩

/-- C3 (amended): for every instance with nonzero modulus `p` and all inputs,
`verify` returns a boolean (it never fails), and it returns `true` iff both
congruences hold *and* `r1`, `r2` are reduced (below `p`): equivalently, iff
`r1 = alpha^s · y1^c mod p` and `r2 = beta^s · y2^c mod p` exactly. -/
theorem C3_verify_characterization (z : ZKP) (hp : 0 < z.p) (r1 r2 y1 y2 c s : Nat) :
    (∃ b, z.verify r1 r2 y1 y2 c s = some b) ∧
    (z.verify r1 r2 y1 y2 c s = some true ↔
      (Nat.ModEq z.p r1 (z.alpha ^ s * y1 ^ c) ∧ r1 < z.p ∧
       Nat.ModEq z.p r2 (z.beta ^ s * y2 ^ c) ∧ r2 < z.p)) := by
  have hp' : z.p ≠ 0 := by omega
  rw [verify_eq z hp']
  refine ⟨⟨_, rfl⟩, ?_⟩
  simp only [Option.some.injEq, Bool.and_eq_true, decide_eq_true_eq]
  constructor
  · rintro ⟨h1, h2⟩
    subst h1
    subst h2
    exact ⟨Nat.mod_modEq _ _, Nat.mod_lt _ hp, Nat.mod_modEq _ _, Nat.mod_lt _ hp⟩
  · rintro ⟨hc1, hlt1, hc2, hlt2⟩
    constructor
    · rw [← Nat.mod_eq_of_lt hlt1]; exact hc1
    · rw [← Nat.mod_eq_of_lt hlt2]; exact hc2

/-- C3 witness: the amended theorem applied to the concrete test group. -/
theorem C3_verify_characterization_witness :
    (∃ b, zkp23.verify 8 4 2 3 4 5 = some b) ∧
    (zkp23.verify 8 4 2 3 4 5 = some true ↔
      (Nat.ModEq zkp23.p 8 (zkp23.alpha ^ 5 * 2 ^ 4) ∧ 8 < zkp23.p ∧
       Nat.ModEq zkp23.p 4 (zkp23.beta ^ 5 * 3 ^ 4) ∧ 4 < zkp23.p)) :=
  C3_verify_characterization zkp23 (by decide) 8 4 2 3 4 5

/-- C4: the concrete end-to-end vector of `test_example`: the four honest
exponentiations, the honest response `s = 5`, acceptance of the honest
transcript, and rejection of the response computed from the fake secret
`x_fake = 7` (which yields `s_fake = 1`). -/
theorem C4_test_example :
    exponentiate 4 6 23 = some 2 ∧ exponentiate 9 6 23 = some 3 ∧
    exponentiate 4 7 23 = some 8 ∧ exponentiate 9 7 23 = some 4 ∧
    zkp23.solve 7 4 6 = some 5 ∧ zkp23.verify 8 4 2 3 4 5 = some true ∧
    zkp23.solve 7 4 7 = some 1 ∧ zkp23.verify 8 4 2 3 4 1 = some false := by
  decide

/-- C5: for every `n` and every modulus `m > 1`,
`exponentiate(n, 0, m) = 1 mod m` and `exponentiate(n, 1, m) = n mod m`. -/
theorem C5_exponentiate_identities (n m : Nat) (hm : 1 < m) :
    exponentiate n 0 m = some (1 % m) ∧ exponentiate n 1 m = some (n % m) := by
  have hm' : m ≠ 0 := by omega
  rw [exponentiate, exponentiate, modpow_of_ne_zero _ _ _ hm',
    modpow_of_ne_zero _ _ _ hm', pow_zero, pow_one]
  exact ⟨rfl, rfl⟩

/-- C5 witness. -/
theorem C5_exponentiate_identities_witness :
    exponentiate 5 0 7 = some (1 % 7) ∧ exponentiate 5 1 7 = some (5 % 7) :=
  C5_exponentiate_identities 5 7 (by decide)

/-- C6: `exponentiate` with modulus `0` fails fast (modelled as `none`, since
`BigUint::modpow` panics on a zero modulus) instead of returning a value, and
this is the only failing shape: for every modulus `m > 0` it returns a
value. -/
theorem C6_exponentiate_zero_modulus (n e m : Nat) :
    exponentiate n e 0 = none ∧ (0 < m → ∃ v, exponentiate n e m = some v) := by
  refine ⟨rfl, fun hm => ⟨_, modpow_of_ne_zero n e m (by omega)⟩⟩

/-- C6 witness. -/
theorem C6_exponentiate_zero_modulus_witness :
    exponentiate 2 3 0 = none ∧ ∃ v, exponentiate 2 3 5 = some v :=
  ⟨(C6_exponentiate_zero_modulus 2 3 5).1,
   (C6_exponentiate_zero_modulus 2 3 5).2 (by decide)⟩

/-- C7: for every bound `> 0` and every state of the random source (stream of
raw draws and loop fuel), any value `generate_random_below` returns satisfies
`0 ≤ v < bound` (the lower bound is inherent to `Nat`); no returned value ever
equals or exceeds the bound. -/
theorem C7_generate_random_below_bound (g : Nat → Nat) (fuel bound v : Nat)
    (hb : 0 < bound) (hv : generate_random_below g fuel bound = some v) :
    v < bound :=
  generate_random_below_lt g fuel bound v hv

/-- C7 witness. -/
theorem C7_generate_random_below_bound_witness :
    generate_random_below (fun _ => 3) 5 10 = some 3 ∧ (3 : Nat) < 10 :=
  ⟨by decide,
   C7_generate_random_below_bound (fun _ => 3) 5 10 3 (by decide) (by decide)⟩

/-- C8: determinism and purity.  `solve` and `verify` are functions of their
explicit arguments and the instance's group parameters only: two instances
with equal `(p, q, alpha, beta)` give equal results on equal arguments
(`exponentiate` is an instance-free static function, so its determinism is
immediate from it being a function of its three arguments).  The embedding is
state-free, matching the source's `&self` receivers, which cannot mutate the
parameters. -/
theorem C8_operations_deterministic (z1 z2 : ZKP)
    (hP : z1.p = z2.p) (hQ : z1.q = z2.q)
    (hA : z1.alpha = z2.alpha) (hB : z1.beta = z2.beta) :
    (∀ k c x, z1.solve k c x = z2.solve k c x) ∧
    (∀ r1 r2 y1 y2 c s, z1.verify r1 r2 y1 y2 c s = z2.verify r1 r2 y1 y2 c s) := by
  obtain ⟨p1, q1, a1, b1⟩ := z1
  obtain ⟨p2, q2, a2, b2⟩ := z2
  cases hP; cases hQ; cases hA; cases hB
  exact ⟨fun _ _ _ => rfl, fun _ _ _ _ _ _ => rfl⟩

/-- C8 witness. -/
theorem C8_operations_deterministic_witness :
    (∀ k c x, zkp23.solve k c x = zkp23.solve k c x) ∧
    (∀ r1 r2 y1 y2 c s, zkp23.verify r1 r2 y1 y2 c s = zkp23.verify r1 r2 y1 y2 c s) :=
  C8_operations_deterministic zkp23 zkp23 rfl rfl rfl rfl

/-- C9: whenever `k < c·x` and `c·x − k` is a (positive, by `k < c·x`)
multiple of the instance's `q`, `solve` returns exactly `q` itself, a value
outside `[0, q)`, because the underflow branch computes
`q − ((c·x − k) mod q) = q − 0`. -/
theorem C9_solve_returns_q (z : ZKP) (k c x : Nat)
    (hq : 0 < z.q) (hlt : k < c * x) (hdvd : z.q ∣ (c * x - k)) :
    z.solve k c x = some z.q ∧ ¬ z.q < z.q := by
  refine ⟨?_, by omega⟩
  rw [solve_eq z (by omega), if_neg (by omega), Nat.mod_eq_zero_of_dvd hdvd,
    Nat.sub_zero]

/-- C9 witness: the claim's own example `q = 11`, `k = 1`, `c = 5`, `x = 9`,
where `c·x − k = 44 = 4·11`. -/
theorem C9_solve_returns_q_witness :
    zkp23.solve 1 5 9 = some zkp23.q ∧ ¬ zkp23.q < zkp23.q :=
  C9_solve_returns_q zkp23 1 5 9 (by decide) (by decide) ⟨4, by decide⟩

/-- C10: whatever `get_constants` returns is the tuple
`(alpha, beta, p, q)` in that order, with `alpha`, `p`, `q` the fixed
hard-coded constants, and `beta = alpha^i mod p` for a sampled `i` in
`[0, q)` — so `beta` lies in the subgroup generated by `alpha`. -/
theorem C10_get_constants_shape (g : Nat → Nat) (fuel : Nat) (a b p q : Nat)
    (h : get_constants g fuel = some (a, b, p, q)) :
    a = alpha_const ∧ p = p_const ∧ q = q_const ∧
    ∃ i, i < q_const ∧ b = alpha_const ^ i % p_const := by
  rw [get_constants] at h
  cases hi : generate_random_below g fuel q_const with
  | none => rw [hi] at h; cases h
  | some i =>
    rw [hi, Option.some_bind, modpow_of_ne_zero _ _ _ p_const_ne_zero,
      Option.some_bind] at h
    simp only [Option.some.injEq, Prod.mk.injEq] at h
    obtain ⟨ha, hb, hp, hq⟩ := h
    exact ⟨ha.symm, hp.symm, hq.symm, i,
      generate_random_below_lt g fuel q_const i hi, hb.symm⟩

set_option maxRecDepth 4000 in
/-- C10 witness: a random source that draws `0` yields `i = 0` and
`beta = alpha^0 mod p = 1 mod p`. -/
theorem C10_get_constants_shape_witness :
    alpha_const = alpha_const ∧ p_const = p_const ∧ q_const = q_const ∧
    ∃ i, i < q_const ∧ 1 % p_const = alpha_const ^ i % p_const :=
  C10_get_constants_shape (fun _ => 0) 1 alpha_const (1 % p_const) p_const q_const
    (by decide)
